import Mathlib

/-!
Verification development for the lecture-scribe transcription/AI pipeline.

The TypeScript sources are shallowly embedded as pure Lean functions.
Network calls (speech-to-text, chat-completion) and subprocess invocations
(ffprobe/ffmpeg) are modelled as explicit environment parameters: an
`Except String _` value stands for a promise that either resolves or
rejects, and an `Option _` value stands for a parsed-or-null result.
JavaScript strings are modelled as `String`/`List Char`; JavaScript
numbers are modelled as `Rat` (an `Option Rat` element models the result
of `Number(x)`, with `none` standing for NaN).
-/

namespace LectureScribe

/-- The whitespace characters relevant to the transcripts handled here
(an approximation of the JS regex class `\s`). -/
def isWS (c : Char) : Bool := c = ' ' || c = '\n' || c = '\t' || c = '\r'

/-- Sentence-terminal punctuation, from the regex `(?<=[.!?])` in
part_002 splitIntoChunks. -/
def isTerminalPunct (c : Char) : Bool := c = '.' || c = '!' || c = '?'

/-- The open-brace character. -/
def lbrace : Char := '\x7b'

/-- The close-brace character. -/
def rbrace : Char := '\x7d'

/-- Join a list of lists with a separator, as JS `Array.prototype.join`. -/
def joinSep {α : Type} (sep : List α) : List (List α) → List α
  | [] => []
  | [x] => x
  | x :: y :: ys => x ++ sep ++ joinSep sep (y :: ys)

/-- `join(" ")` on character lists. -/
def joinSpace : List (List Char) → List Char := joinSep [' ']

/-- `join(sep)` on Lean strings. -/
def joinSepStr (sep : String) : List String → String
  | [] => ""
  | [x] => x
  | x :: y :: ys => x ++ sep ++ joinSepStr sep (y :: ys)

/-- JS `String.prototype.trim`: strip leading and trailing whitespace. -/
def jsTrim (s : String) : String :=
  String.mk (((s.data.dropWhile isWS).reverse.dropWhile isWS).reverse)

/-- Is the Except value a rejection? -/
def isErr {ε α : Type} : Except ε α → Bool
  | .error _ => true
  | .ok _ => false

/-! ## Data model (src/server/ai.ts, shared schema) -/

/-- ai.ts LectureMode. -/
inductive LectureMode where
  | theory
  | numerical
deriving DecidableEq

/-- One entry of structuredNotes: heading plus bullet points. -/
structure NoteSection where
  heading : String
  points : List String
deriving DecidableEq

/-- ai.ts AISummary qaPairs element; marks is a JS number (Rat). -/
structure QAPair where
  question : String
  answer : String
  marks : Rat
deriving DecidableEq

/-- ai.ts AISummary / the LectureResult handed back by the routes. -/
structure AISummary where
  transcription : String
  summary : String
  structuredNotes : List NoteSection
  qaPairs : List QAPair
deriving DecidableEq

/-- The shape of one parsed per-chunk model response in ai.ts
(fields summary and structuredNotes of the embedded JSON object). -/
structure ChunkSummary where
  summary : String
  structuredNotes : List NoteSection
deriving DecidableEq

namespace Ai

/-- Loop body of ai.ts chunkText: repeatedly slice `maxLength` characters.
`m` is maxLength - 1 (a produced slice is the head character plus up to
`m` further ones); the fuel argument makes the recursion structural and
is instantiated with the text length, which bounds the number of slices. -/
def chunkTextGo (m : Nat) : Nat → List Char → List (List Char)
  | _, [] => []
  | 0, _ :: _ => []
  | fuel + 1, c :: cs => (c :: cs.take m) :: chunkTextGo m fuel (cs.drop m)

/-- ai.ts chunkText: split text into consecutive slices of at most
`maxLength` characters (default 3500), with no regard for sentence
boundaries. -/
def chunkText (text : List Char) (maxLength : Nat := 3500) : List (List Char) :=
  chunkTextGo (maxLength - 1) text.length text

/-- Second stage of the regex match in ai.ts safeJSONParse: given the
reversed suffix truncated at the last close brace, undo the reversal;
an empty list means no close brace followed the first open brace. -/
def lastCloseCore : List Char → Option (List Char)
  | [] => none
  | r :: rs => some ((r :: rs).reverse)

/-- First stage of the regex match: given the suffix of the content
starting at the first open brace (empty when there is none), cut the
suffix at its last close brace. -/
def firstOpenCore : List Char → Option (List Char)
  | [] => none
  | c :: cs => lastCloseCore (((c :: cs).reverse).dropWhile (fun x => x != rbrace))

/-- The span matched by the regex `\x7b[\s\S]*\x7d` in ai.ts
safeJSONParse: from the first open brace to the last close brace
(the quantifier is greedy), or none when no such span exists. -/
def extractJsonSpan (content : List Char) : Option (List Char) :=
  firstOpenCore (content.dropWhile (fun c => c != lbrace))

/-- ai.ts safeJSONParse, parameterized by the JSON parser applied to the
extracted span (JSON.parse is external): no span or a parse failure
yields none. -/
def safeJSONParse {J : Type} (parse : List Char → Option J) (content : List Char) : Option J :=
  match extractJsonSpan content with
  | none => none
  | some span => parse span

/-- The body of the aggregation loop in ai.ts generateAISummary
(lines 147-152): a null parse result is skipped, a parsed result appends
" " + summary to the combined summary and concatenates its notes. -/
def combineStep (acc : String × List NoteSection) (r : Option ChunkSummary) :
    String × List NoteSection :=
  match r with
  | none => acc
  | some p => (acc.1 ++ " " ++ p.summary, acc.2 ++ p.structuredNotes)

/-- The aggregation of all per-chunk parsed results, in chunk order
(the batches of 5 only pace the network calls; results are consumed in
ordinal order). -/
def combineResults (results : List (Option ChunkSummary)) : String × List NoteSection :=
  results.foldl combineStep ("", [])

/-- ai.ts generateAISummary. The chat-completion responses are supplied
by the environment: `chunkResp i` is the parsed summarization response
for chunk `i` (none for a thrown call, missing content, or a failed
parse), and `qaResp` is the parsed qaPairs array of the question
response (none for a thrown call, missing content, or a failed parse, in
which case the code keeps the initial empty list). The mode only selects
the prompt text, which is external. -/
def generateAISummary (chunkResp : Nat → Option ChunkSummary)
    (qaResp : Option (List QAPair)) (transcript : String) (mode : LectureMode)
    (marksList : List Rat) : AISummary :=
  let chunks := chunkText transcript.data
  let results := (List.range chunks.length).map chunkResp
  let combined := combineResults results
  let combinedQA := qaResp.getD []
  let filtered := combinedQA.filter (fun qa => decide (qa.marks ∈ marksList))
  { transcription := transcript
    summary := jsTrim combined.1
    structuredNotes := combined.2
    qaPairs := filtered }

/-- Modelled from the spec: the extraction the spec describes for
safeJSONParse, namely the first balanced brace span. Scans from the
first open brace tracking nesting depth and returns the span closed by
the brace that returns the depth to zero. Stated only to compare with
`extractJsonSpan`, the extraction the code performs. -/
def balancedGo (depth : Nat) (acc : List Char) : List Char → Option (List Char)
  | [] => none
  | c :: rest =>
    if c = lbrace then balancedGo (depth + 1) (c :: acc) rest
    else if c = rbrace then
      if depth = 1 then some (c :: acc).reverse
      else balancedGo (depth - 1) (c :: acc) rest
    else balancedGo depth (c :: acc) rest

/-- Modelled from the spec: first balanced brace span of the content
(see `balancedGo`). -/
def firstBalancedSpan (content : List Char) : Option (List Char) :=
  match content.dropWhile (fun c => c != lbrace) with
  | [] => none
  | l => balancedGo 0 [] l

end Ai

/-! ## part_002: sentence-aligned text splitter, per-chunk-safe
transcription, AI fallback route -/

namespace Part002

/-- State machine for the JS split `text.split(/(?<=[.!?])\s+/)` used by
part_002 splitIntoChunks. A separator is a maximal whitespace run whose
preceding character is terminal punctuation; `prevTerm` tracks whether
the previous original character was terminal, `inSep` whether the scan
is inside a separator run, `cur` the current sentence (reversed), `acc`
the completed sentences (reversed). A trailing separator contributes a
final empty field, as the JS split does. -/
def sentencesGo (prevTerm inSep : Bool) (cur : List Char) (acc : List (List Char)) :
    List Char → List (List Char)
  | [] => (cur.reverse :: acc).reverse
  | c :: rest =>
    if inSep then
      if isWS c then sentencesGo (isTerminalPunct c) true cur acc rest
      else sentencesGo (isTerminalPunct c) false [c] acc rest
    else
      if isWS c && prevTerm then sentencesGo (isTerminalPunct c) true [] (cur.reverse :: acc) rest
      else sentencesGo (isTerminalPunct c) false (c :: cur) acc rest

/-- The sentence tokenization of part_002 splitIntoChunks. -/
def splitSentences (text : List Char) : List (List Char) :=
  sentencesGo false false [] [] text

/-- Number of maximal whitespace runs in a string (`prevWS` tracks
whether the previous character was whitespace). -/
def wsRunsGo (prevWS : Bool) : List Char → Nat
  | [] => 0
  | c :: rest => if isWS c && !prevWS then 1 + wsRunsGo true rest else wsRunsGo (isWS c) rest

/-- JS `sentence.split(/\s+/).length`: one more than the number of
maximal whitespace runs (leading and trailing runs each contribute an
empty field, exactly as the JS split does). -/
def wordCount (s : List Char) : Nat := 1 + wsRunsGo false s

/-- The greedy accumulation loop of part_002 splitIntoChunks: when
adding the next sentence would exceed the target and the current chunk
already has content, the current chunk is closed (joined with single
spaces); a non-empty trailing chunk is always flushed. -/
def chunksGo (target : Nat) (cur : List (List Char)) (curWC : Nat) :
    List (List Char) → List (List Char)
  | [] => if cur.isEmpty then [] else [joinSpace cur]
  | s :: rest =>
    if decide (curWC + wordCount s > target) && !cur.isEmpty then
      joinSpace cur :: chunksGo target [s] (wordCount s) rest
    else
      chunksGo target (cur ++ [s]) (curWC + wordCount s) rest

/-- part_002 splitIntoChunks (text, targetWords = 600). -/
def splitIntoChunks (text : List Char) (targetWords : Nat := 600) : List (List Char) :=
  chunksGo targetWords [] 0 (splitSentences text)

/-- Verification scaffolding (not in the source): the same greedy loop
as `chunksGo`, but returning the groups of sentences instead of their
space-joins, to state the partition property. -/
def groupsGo (target : Nat) (cur : List (List Char)) (curWC : Nat) :
    List (List Char) → List (List (List Char))
  | [] => if cur.isEmpty then [] else [cur]
  | s :: rest =>
    if decide (curWC + wordCount s > target) && !cur.isEmpty then
      cur :: groupsGo target [s] (wordCount s) rest
    else
      groupsGo target (cur ++ [s]) (curWC + wordCount s) rest

/-- part_002 transcribeChunks loop (lines 513-531): each chunk is
transcribed with a per-chunk try/catch; a rejected call contributes the
placeholder marker text for its segment. `i` is the zero-based index. -/
def transcribeChunksGo {α : Type} (speechToText : α → Except String String) (i : Nat) :
    List α → List String
  | [] => []
  | c :: rest =>
    (match speechToText c with
     | .ok t => t
     | .error _ => "[Transcription failed for segment " ++ toString (i + 1) ++ "]")
    :: transcribeChunksGo speechToText (i + 1) rest

/-- part_002 transcribeChunks: per-chunk results (text or placeholder)
joined with a single space; never rejects. -/
def transcribeChunks {α : Type} (speechToText : α → Except String String)
    (chunks : List α) : String :=
  joinSepStr " " (transcribeChunksGo speechToText 0 chunks)

/-- The summary/notes/qaPairs triple produced by processLongTranscript
or getMockResponse in part_002. -/
structure Content where
  summary : String
  structuredNotes : List NoteSection
  qaPairs : List QAPair
deriving DecidableEq

/-- part_002 getMockResponse (lines 189-210): the fixed placeholder
returned when AI processing fails; the transcription argument is
accepted but unused by the body. -/
def getMockResponse (transcription : String) : Content :=
  { summary := "This is a mock summary. The AI service is currently unavailable. Your lecture has been transcribed but could not be processed for notes. Please try again later."
    structuredNotes := [⟨"Transcription Available",
      ["Your audio was successfully transcribed",
       "AI processing is temporarily unavailable",
       "Retry later for full analysis"]⟩]
    qaPairs := [⟨"What is this lecture about?",
      "Please review the transcription above for lecture content.", 2⟩] }

end Part002

/-! ## src/server/routes.ts: marks validation, audio split, batched
transcription, route handler -/

namespace RoutesSrv

/-- HTTP outcome of the process-audio route: a 200 JSON body or an
error status with a message. -/
inductive HttpResp where
  | ok (body : AISummary)
  | err (status : Nat) (message : String)
deriving DecidableEq

/-- The outcome of `JSON.parse(req.body.marksList)` followed by
`Array.isArray`: the field may be absent, fail to parse (the catch
branch), parse to a non-array, or parse to an array whose elements are
given after `Number(m)` conversion (none models NaN). -/
inductive MarksField where
  | absent
  | unparseable
  | nonArray
  | array (elems : List (Option Rat))
deriving DecidableEq

/-- routes.ts marks validation (lines 109-128): start from the default
[2,5]; a successfully parsed array replaces it by its numeric positive
elements; finally truncate to at most 2 entries. -/
def validateMarks (field : MarksField) : List Rat :=
  let marksList : List Rat := [2, 5]
  let marksList :=
    match field with
    | .array parsed => (parsed.filterMap id).filter (fun m => decide (0 < m))
    | _ => marksList
  marksList.take 2

/-- routes.ts format detection from the lowercased original filename
(lines 130-137). -/
def detectFormat (originalname : String) : String :=
  let name := originalname.toLower
  if name.endsWith ".wav" then "wav"
  else if name.endsWith ".mp3" then "mp3"
  else if name.endsWith ".m4a" then "m4a"
  else "webm"

/-- routes.ts splitAudioIntoChunks (lines 24-62), with the external
ffprobe/ffmpeg invocations supplied by the environment. `probe` is the
parsed ffprobe duration (`none` models parseFloat returning NaN; an
error models a rejected subprocess). In JS, `NaN <= 180` is false, so a
NaN duration falls through to the segmentation path. `convertSingle` is
the single resampled WAV buffer, `segmented` the segment files read back
in sorted filename order. -/
def splitAudioIntoChunks {β : Type} (probe : Except String (Option Rat))
    (convertSingle : Except String β) (segmented : Except String (List β)) :
    Except String (List β) :=
  match probe with
  | .error e => .error e
  | .ok duration =>
    match duration with
    | some d => if d ≤ 180 then convertSingle.map (fun b => [b]) else segmented
    | none => segmented

/-- `Promise.all` over one batch of transcription calls: if every call
resolves, the list of texts in call order; otherwise the batch rejects
(modelled deterministically with the first rejection in call order). -/
def collectBatch : List (Except String String) → Except String (List String)
  | [] => .ok []
  | .error e :: _ => .error e
  | .ok t :: rest => (collectBatch rest).map (fun ts => t :: ts)

/-- routes.ts transcribeChunks batch loop (BATCH_SIZE = 5). There is no
per-chunk try/catch: a rejected batch rejects the whole loop. The fuel
argument makes the recursion structural and is instantiated with the
chunk count, which bounds the number of batches. -/
def transcribeChunksGo {α : Type} (transcribeAudio : α → Except String String) :
    Nat → List α → Except String (List String)
  | _, [] => .ok []
  | 0, _ :: _ => .ok []
  | fuel + 1, c :: cs =>
    match collectBatch (((c :: cs).take 5).map transcribeAudio) with
    | .error e => .error e
    | .ok texts => (transcribeChunksGo transcribeAudio fuel ((c :: cs).drop 5)).map
        (fun ts => texts ++ ts)

/-- routes.ts transcribeChunks (lines 66-89): batched transcription, the
results joined with a blank line and trimmed; rejects as soon as any
chunk rejects. -/
def transcribeChunks {α : Type} (transcribeAudio : α → Except String String)
    (chunks : List α) : Except String String :=
  (transcribeChunksGo transcribeAudio chunks.length chunks).map
    (fun results => jsTrim (joinSepStr "\n\n" results))

/-- The route-level catch responds 500 with `err.message` or, when that
message is falsy (empty), the fallback text. -/
def orProcessingFailed (msg : String) : String :=
  if msg = "" then "Processing failed" else msg

/-- The POST /api/process-audio handler of src/server/routes.ts
(lines 98-176), with the external services supplied by the environment
(`chunkResp`/`qaResp` feed generateAISummary, `transcribeAudio` is the
per-buffer speech-to-text call, `splitResult` the outcome of
splitAudioIntoChunks on the uploaded buffer). The returned Bool records
whether generateAISummary was invoked, i.e. whether any summarization or
question-generation call was attempted. The createNote side effect is
modelled separately (see Storage.createNote). -/
def handleProcess {α : Type} (chunkResp : Nat → Option ChunkSummary)
    (qaResp : Option (List QAPair)) (transcribeAudio : α → Except String String)
    (file : Option String) (modeField : Option String) (marksField : MarksField)
    (splitResult : Except String (List α)) : HttpResp × Bool :=
  match file with
  | none => (.err 400 "No audio file provided", false)
  | some originalname =>
    let mode := if modeField = some "numerical" then LectureMode.numerical
                else LectureMode.theory
    let marksList := validateMarks marksField
    let _format := detectFormat originalname
    match splitResult with
    | .error e => (.err 500 (orProcessingFailed e), false)
    | .ok chunks =>
      match transcribeChunks transcribeAudio chunks with
      | .error e => (.err 500 (orProcessingFailed e), false)
      | .ok transcription =>
        if transcription = "" then (.err 400 "No speech detected", false)
        else
          (.ok (Ai.generateAISummary chunkResp qaResp transcription mode marksList), true)

end RoutesSrv

namespace Part002

/-- The part_002 route handler variant at lines 212-305, restricted to
the stages the fallback claim is about: a missing file responds 400, a
rejected transcription responds 500, a rejected AI stage is replaced by
getMockResponse, and the response carries the transcription together
with the produced (or mock) content. -/
def handleProcess (transcribeResult : Except String String)
    (aiResult : Except String Content) (file : Option String) : RoutesSrv.HttpResp :=
  match file with
  | none => .err 400 "No audio file provided"
  | some _ =>
    match transcribeResult with
    | .error _ =>
      .err 500 "Failed to transcribe audio. Please ensure the file is a valid audio recording."
    | .ok transcription =>
      let content :=
        match aiResult with
        | .ok c => c
        | .error _ => getMockResponse transcription
      .ok ⟨transcription, content.summary, content.structuredNotes, content.qaPairs⟩

end Part002

/-! ## src/server/storage.ts -/

namespace Storage

/-- The InsertNote shape the routes pass to createNote: the full lecture
result plus the file name. -/
structure InsertNote where
  fileName : String
  transcription : String
  summary : String
  structuredNotes : List NoteSection
  qaPairs : List QAPair
deriving DecidableEq

/-- The note value actually constructed by MemStorage.createNote. The
summary field is an Option because the constructed object carries null
there (the TS `as Note` cast hides that the declared schema marks it
notNull). -/
structure Note where
  id : Nat
  fileName : String
  transcription : String
  summary : Option String
  structuredNotes : List NoteSection
  qaPairs : List QAPair
deriving DecidableEq

/-- MemStorage: the notes map (as an association list) and the
auto-incrementing id counter. -/
structure MemStorage where
  notes : List (Nat × Note)
  currentId : Nat
deriving DecidableEq

/-- The freshly constructed MemStorage (notes empty, currentId 1). -/
def memInit : MemStorage := { notes := [], currentId := 1 }

/-- MemStorage.createNote (storage.ts lines 16-29): the note is built by
spreading insertNote and THEN assigning summary: null,
structuredNotes: [], qaPairs: [] — the later keys win, so the AI fields
of the insert are discarded. The note is stored under the incremented
id and returned. -/
def createNote (st : MemStorage) (insertNote : InsertNote) : Note × MemStorage :=
  let id := st.currentId
  let note : Note :=
    { id := id
      fileName := insertNote.fileName
      transcription := insertNote.transcription
      summary := none
      structuredNotes := []
      qaPairs := [] }
  (note, { notes := st.notes ++ [(id, note)], currentId := st.currentId + 1 })

end Storage

/-- The rational 5/2, in reduced constructor form so that kernel
evaluation does not need to normalize: a concrete non-integer JS number
such as the result of Number("2.5"). -/
def fiveHalves : Rat := ⟨5, 2, by decide, by decide⟩

/-! ## Helper lemmas -/

theorem joinSpace_def : joinSpace = joinSep [' '] := rfl

theorem joinSep_cons_cons {α : Type} (sep : List α) (a b : List α) (l : List (List α)) :
    joinSep sep (a :: b :: l) = a ++ sep ++ joinSep sep (b :: l) := rfl

theorem joinSep_append {α : Type} (sep : List α) :
    ∀ (a b : List (List α)), a ≠ [] → b ≠ [] →
      joinSep sep (a ++ b) = joinSep sep a ++ sep ++ joinSep sep b := by
  intro a
  induction a with
  | nil => intro b h _; exact absurd rfl h
  | cons x xs ih =>
    intro b _ hb
    cases xs with
    | nil =>
      cases b with
      | nil => exact absurd rfl hb
      | cons y ys => simp [joinSep]
    | cons x2 xs2 =>
      have hrec := ih b (by simp) hb
      simp only [List.cons_append] at hrec ⊢
      rw [joinSep, joinSep, hrec]
      simp [List.append_assoc]

theorem joinSep_map_join {α : Type} (sep : List α) :
    ∀ (groups : List (List (List α))), (∀ g ∈ groups, g ≠ []) →
      joinSep sep (groups.map (joinSep sep)) = joinSep sep groups.flatten := by
  intro groups
  induction groups with
  | nil => intro _; rfl
  | cons g gs ih =>
    intro h
    cases gs with
    | nil => simp [joinSep]
    | cons g2 gs2 =>
      have hg : g ≠ [] := h g (by simp)
      have hjoin : (g2 :: gs2).flatten ≠ [] := by
        have hg2 : g2 ≠ [] := h g2 (by simp)
        cases g2 with
        | nil => exact absurd rfl hg2
        | cons a as => simp
      rw [List.map_cons, List.flatten_cons, List.map_cons, joinSep_cons_cons,
        ← List.map_cons, ih (fun x hx => h x (by simp [hx]))]
      rw [joinSep_append sep g (g2 :: gs2).flatten hg hjoin]

theorem joinSep_ne_nil {α : Type} (sep : List α) :
    ∀ (l : List (List α)), l ≠ [] → (∀ x ∈ l, x ≠ []) → joinSep sep l ≠ [] := by
  intro l hl hx
  cases l with
  | nil => exact absurd rfl hl
  | cons a as =>
    cases as with
    | nil => exact hx a (by simp)
    | cons b bs =>
      have ha : a ≠ [] := hx a (by simp)
      cases a with
      | nil => exact absurd rfl ha
      | cons c cs => simp [joinSep]

theorem chunksGo_eq_map (target : Nat) :
    ∀ (sents cur : List (List Char)) (wc : Nat),
      Part002.chunksGo target cur wc sents
        = (Part002.groupsGo target cur wc sents).map joinSpace := by
  intro sents
  induction sents with
  | nil =>
    intro cur wc
    cases cur <;> simp [Part002.chunksGo, Part002.groupsGo]
  | cons s rest ih =>
    intro cur wc
    rw [Part002.chunksGo, Part002.groupsGo]
    by_cases h : (decide (wc + Part002.wordCount s > target) && !cur.isEmpty) = true
    · rw [if_pos h, if_pos h, List.map_cons, ih]
    · rw [if_neg h, if_neg h, ih]

theorem groupsGo_join_eq (target : Nat) :
    ∀ (sents cur : List (List Char)) (wc : Nat),
      (Part002.groupsGo target cur wc sents).flatten = cur ++ sents := by
  intro sents
  induction sents with
  | nil =>
    intro cur wc
    cases cur <;> simp [Part002.groupsGo]
  | cons s rest ih =>
    intro cur wc
    rw [Part002.groupsGo]
    by_cases h : (decide (wc + Part002.wordCount s > target) && !cur.isEmpty) = true
    · rw [if_pos h, List.flatten_cons, ih]; simp
    · rw [if_neg h, ih]; simp

theorem groupsGo_ne_nil (target : Nat) :
    ∀ (sents cur : List (List Char)) (wc : Nat) (g : List (List Char)),
      g ∈ Part002.groupsGo target cur wc sents → g ≠ [] := by
  intro sents
  induction sents with
  | nil =>
    intro cur wc g hg
    cases cur with
    | nil => simp [Part002.groupsGo] at hg
    | cons a as =>
      simp [Part002.groupsGo] at hg
      simp [hg]
  | cons s rest ih =>
    intro cur wc g hg
    rw [Part002.groupsGo] at hg
    by_cases h : (decide (wc + Part002.wordCount s > target) && !cur.isEmpty) = true
    · rw [if_pos h] at hg
      rcases List.mem_cons.mp hg with hcur | hrec
      · have hne : cur.isEmpty = false := by
          rcases Bool.and_eq_true_iff.mp h with ⟨_, h2⟩
          simpa using h2
        subst hcur
        intro hnil
        rw [hnil] at hne
        simp at hne
      · exact ih _ _ g hrec
    · rw [if_neg h] at hg
      exact ih _ _ g hg

theorem chunkTextGo_join (m : Nat) :
    ∀ (fuel : Nat) (l : List Char), l.length ≤ fuel →
      (Ai.chunkTextGo m fuel l).flatten = l := by
  intro fuel
  induction fuel with
  | zero =>
    intro l h
    have : l = [] := List.eq_nil_of_length_eq_zero (Nat.le_zero.mp h)
    subst this; rfl
  | succ fuel ih =>
    intro l h
    cases l with
    | nil => rfl
    | cons c cs =>
      rw [Ai.chunkTextGo, List.flatten_cons, ih (cs.drop m) (by
        have hcs : cs.length ≤ fuel := by simp at h; omega
        calc (cs.drop m).length = cs.length - m := by simp
          _ ≤ cs.length := Nat.sub_le _ _
          _ ≤ fuel := hcs)]
      simp [List.take_append_drop]

theorem chunkTextGo_mem_ne_nil (m : Nat) :
    ∀ (fuel : Nat) (l c : List Char), c ∈ Ai.chunkTextGo m fuel l → c ≠ [] := by
  intro fuel
  induction fuel with
  | zero =>
    intro l c hc
    cases l <;> simp [Ai.chunkTextGo] at hc
  | succ fuel ih =>
    intro l c hc
    cases l with
    | nil => simp [Ai.chunkTextGo] at hc
    | cons x xs =>
      rw [Ai.chunkTextGo] at hc
      rcases List.mem_cons.mp hc with h1 | h2
      · subst h1; simp
      · exact ih _ c h2

/-! ## Claim theorems -/

/-- C2 counterexample: the claim says no produced chunk is the empty
string, for every input text; but on the empty input text the sentence
split yields one empty sentence and splitIntoChunks returns a list
containing the empty chunk. -/
theorem c2_counterexample : [] ∈ Part002.splitIntoChunks [] 600 := by decide

/-- C2 (amended): for part_002 splitIntoChunks, rejoining the chunks
with single spaces reproduces the space-joined sentence sequence; the
chunks are exactly the space-joins of a partition of the sentence list
into non-empty consecutive groups (so no boundary falls inside a
sentence); and every chunk is non-empty provided the sentence
tokenization yields no empty sentence. For the character-based ai.ts
chunkText, concatenating the chunks reproduces the text exactly and no
chunk is empty. -/
theorem c2_chunking_amended :
    (∀ (text : List Char) (target : Nat),
       joinSpace (Part002.splitIntoChunks text target)
         = joinSpace (Part002.splitSentences text))
    ∧ (∀ (text : List Char) (target : Nat), ∃ groups : List (List (List Char)),
         (∀ g ∈ groups, g ≠ [])
         ∧ groups.flatten = Part002.splitSentences text
         ∧ Part002.splitIntoChunks text target = groups.map joinSpace)
    ∧ (∀ (text : List Char) (target : Nat),
         (∀ s ∈ Part002.splitSentences text, s ≠ []) →
         ∀ c ∈ Part002.splitIntoChunks text target, c ≠ [])
    ∧ (∀ (text : List Char) (m : Nat),
         (Ai.chunkText text m).flatten = text ∧ ∀ c ∈ Ai.chunkText text m, c ≠ []) := by
  refine ⟨?_, ?_, ?_, ?_⟩
  · intro text target
    rw [Part002.splitIntoChunks, chunksGo_eq_map, joinSpace_def]
    rw [joinSep_map_join _ _ (fun g hg => groupsGo_ne_nil target _ _ _ g hg)]
    rw [groupsGo_join_eq]
    rfl
  · intro text target
    refine ⟨Part002.groupsGo target [] 0 (Part002.splitSentences text),
      fun g hg => groupsGo_ne_nil target _ _ _ g hg, ?_, ?_⟩
    · simpa using groupsGo_join_eq target (Part002.splitSentences text) [] 0
    · rw [Part002.splitIntoChunks, chunksGo_eq_map]
  · intro text target hsent c hc
    rw [Part002.splitIntoChunks, chunksGo_eq_map] at hc
    rcases List.mem_map.mp hc with ⟨g, hg, rfl⟩
    have hgne : g ≠ [] := groupsGo_ne_nil target _ _ _ g hg
    refine joinSep_ne_nil _ g hgne (fun x hx => ?_)
    refine hsent x ?_
    have : x ∈ (Part002.groupsGo target [] 0 (Part002.splitSentences text)).flatten :=
      List.mem_flatten.mpr ⟨g, hg, hx⟩
    rw [groupsGo_join_eq] at this
    simpa using this
  · intro text m
    exact ⟨chunkTextGo_join _ _ _ (Nat.le_refl _),
      fun c hc => chunkTextGo_mem_ne_nil _ _ _ c hc⟩

/-- C2 witness: on a concrete text whose sentences are all non-empty,
no empty chunk is produced. -/
theorem c2_witness : [] ∉ Part002.splitIntoChunks ("Hi there. Go now.".data) 600 :=
  fun hmem => (c2_chunking_amended.2.2.1 ("Hi there. Go now.".data) 600 (by decide)) [] hmem rfl

/-- C1: every QAPair in the qaPairs field of the generateAISummary
result has a marks value belonging to the supplied marks list — the
post-generation filter discards everything else, whatever the model
responses were. -/
theorem c1_marks_filter (chunkResp : Nat → Option ChunkSummary)
    (qaResp : Option (List QAPair)) (transcript : String) (mode : LectureMode)
    (marksList : List Rat) :
    ∀ qa ∈ (Ai.generateAISummary chunkResp qaResp transcript mode marksList).qaPairs,
      qa.marks ∈ marksList := by
  intro qa hqa
  have hqa' : qa ∈ (qaResp.getD []).filter (fun qa => decide (qa.marks ∈ marksList)) := hqa
  exact of_decide_eq_true (List.mem_filter.mp hqa').2

/-- C1 witness at a concrete instance: the pair with marks 2 survives
the filter for marks list [2, 5] and its marks belongs to the list. -/
theorem c1_witness :
    (⟨"q", "a", 2⟩ : QAPair) ∈ (Ai.generateAISummary (fun _ => none)
        (some [⟨"q", "a", 2⟩]) "t" LectureMode.theory [2, 5]).qaPairs
    ∧ (⟨"q", "a", 2⟩ : QAPair).marks ∈ ([2, 5] : List Rat) :=
  ⟨by decide, c1_marks_filter (fun _ => none) (some [⟨"q", "a", 2⟩]) "t"
    LectureMode.theory [2, 5] ⟨"q", "a", 2⟩ (by decide)⟩

/-- C3: when the file is present, transcription resolves (to a
non-empty transcript) and the AI stage rejects, the part_002 handler
still responds 200 with the transcript and the fixed, well-formed mock
summary/notes/QA placeholder; no rejection reaches the HTTP layer as a
failure response. -/
theorem c3_fallback_result (fname transcript aiFailure : String) (h : transcript ≠ "") :
    Part002.handleProcess (.ok transcript) (.error aiFailure) (some fname)
      = .ok ⟨transcript,
          "This is a mock summary. The AI service is currently unavailable. Your lecture has been transcribed but could not be processed for notes. Please try again later.",
          [⟨"Transcription Available",
            ["Your audio was successfully transcribed",
             "AI processing is temporarily unavailable",
             "Retry later for full analysis"]⟩],
          [⟨"What is this lecture about?",
            "Please review the transcription above for lecture content.", 2⟩]⟩ := rfl

/-- C3 witness at a concrete instance. -/
theorem c3_witness :
    ("some lecture text" ≠ "")
    ∧ Part002.handleProcess (.ok "some lecture text") (.error "service down") (some "rec.wav")
      = .ok ⟨"some lecture text",
          "This is a mock summary. The AI service is currently unavailable. Your lecture has been transcribed but could not be processed for notes. Please try again later.",
          [⟨"Transcription Available",
            ["Your audio was successfully transcribed",
             "AI processing is temporarily unavailable",
             "Retry later for full analysis"]⟩],
          [⟨"What is this lecture about?",
            "Please review the transcription above for lecture content.", 2⟩]⟩ :=
  ⟨by decide, c3_fallback_result "rec.wav" "some lecture text" "service down" (by decide)⟩

/-- C6: when the merged transcript is the empty string, the routes.ts
handler responds 400 with the no-speech message and the AI stage is
never invoked (the Bool component records whether generateAISummary,
i.e. any summarization or question-generation call, was reached). -/
theorem c6_no_speech_400 {α : Type} (chunkResp : Nat → Option ChunkSummary)
    (qaResp : Option (List QAPair)) (transcribeAudio : α → Except String String)
    (name : String) (modeField : Option String) (marksField : RoutesSrv.MarksField)
    (chunks : List α)
    (h : RoutesSrv.transcribeChunks transcribeAudio chunks = .ok "") :
    RoutesSrv.handleProcess chunkResp qaResp transcribeAudio (some name) modeField marksField
        (.ok chunks) = (.err 400 "No speech detected", false) := by
  simp [RoutesSrv.handleProcess, h]

/-- C6 witness: a silent recording (every chunk transcribes to text that
merges to the empty string). -/
theorem c6_witness :
    RoutesSrv.handleProcess (fun _ => none) none (fun _ : Nat => .ok "") (some "a.wav")
        none .absent (.ok []) = (.err 400 "No speech detected", false) :=
  c6_no_speech_400 _ _ _ _ _ _ _ rfl

/-- C9 (code bug evidence): createNote evaluated at an insert carrying a
real summary, notes and QA pairs stores a note whose summary is null and
whose notes and QA lists are empty — the spread is overridden by the
later keys, so the stored note does not hold the full produced
LectureResult. -/
theorem c9_stored_note_drops_ai_fields :
    (Storage.createNote Storage.memInit
        ⟨"lecture.wav", "transcript text", "a real summary",
         [⟨"Heading", ["point one"]⟩], [⟨"Q", "A", 2⟩]⟩).1
      = { id := 1, fileName := "lecture.wav", transcription := "transcript text",
          summary := none, structuredNotes := [], qaPairs := [] } := rfl

/-- C7 counterexample: a probed duration of zero does not fail — it
takes the short-audio path and yields one converted buffer; an
unparseable (NaN) duration takes the segmentation path and yields
whatever the segmenter produced, here the empty chunk list, silently. -/
theorem c7_counterexample :
    RoutesSrv.splitAudioIntoChunks (.ok (some 0)) (.ok (7 : Nat)) (.ok [])
        = .ok [7]
    ∧ RoutesSrv.splitAudioIntoChunks (.ok none) (.ok (7 : Nat)) (.ok ([] : List Nat))
        = .ok [] := ⟨rfl, rfl⟩

/-- C7 (amended): splitAudioIntoChunks raises no probe error of its own.
A parsed duration of at most 180 seconds — including zero — follows the
single-chunk path and returns the one converted buffer (or the
conversion failure); an unparseable duration (NaN, which compares false
against 180) and a duration above 180 both follow the segmentation path
and return exactly the segmentation outcome, be it an empty list; a
rejected probe propagates as the request failure. -/
theorem c7_split_audio_amended {β : Type} :
    (∀ (conv : Except String β) (seg : Except String (List β)) (d : Rat), d ≤ 180 →
       RoutesSrv.splitAudioIntoChunks (.ok (some d)) conv seg = conv.map (fun b => [b]))
    ∧ (∀ (conv : Except String β) (seg : Except String (List β)) (d : Rat), ¬ d ≤ 180 →
       RoutesSrv.splitAudioIntoChunks (.ok (some d)) conv seg = seg)
    ∧ (∀ (conv : Except String β) (seg : Except String (List β)),
       RoutesSrv.splitAudioIntoChunks (.ok none) conv seg = seg)
    ∧ (∀ (conv : Except String β) (seg : Except String (List β)) (e : String),
       RoutesSrv.splitAudioIntoChunks (.error e) conv seg = .error e) := by
  refine ⟨?_, ?_, ?_, ?_⟩
  · intro conv seg d hd
    simp [RoutesSrv.splitAudioIntoChunks, hd]
  · intro conv seg d hd
    simp [RoutesSrv.splitAudioIntoChunks, hd]
  · intro conv seg; rfl
  · intro conv seg e; rfl

/-- C7 witness: the zero-duration path at concrete inputs. -/
theorem c7_witness :
    RoutesSrv.splitAudioIntoChunks (.ok (some 0)) (.ok (3 : Nat)) (.ok [])
      = (Except.ok (3 : Nat)).map (fun b => [b]) :=
  c7_split_audio_amended.1 (.ok 3) (.ok []) 0 (by norm_num)

/-- C4 counterexample: a parseable array with no positive entries leaves
the validated marks list empty (the default is not reinstated), and a
positive non-integer number passes the filter — the validated list is
neither guaranteed non-empty nor made of integers. -/
theorem c4_counterexample :
    RoutesSrv.validateMarks (.array []) = ([] : List Rat)
    ∧ RoutesSrv.validateMarks (.array [some fiveHalves]) = [fiveHalves]
    ∧ (fiveHalves.isInt = false) := by decide

/-- C4 (amended): after validation the marks list has at most 2 entries
and every entry is a positive number (not necessarily an integer); when
the field is absent, unparseable, or parses to a non-array, the default
[2, 5] applies; a parseable array whose numeric positive entries are
exhausted by the filter yields an empty validated list. -/
theorem c4_marks_amended :
    (∀ field, (RoutesSrv.validateMarks field).length ≤ 2)
    ∧ (∀ field m, m ∈ RoutesSrv.validateMarks field → 0 < m)
    ∧ (RoutesSrv.validateMarks .absent = [2, 5]
       ∧ RoutesSrv.validateMarks .unparseable = [2, 5]
       ∧ RoutesSrv.validateMarks .nonArray = [2, 5]) := by
  refine ⟨?_, ?_, by decide, by decide, by decide⟩
  · intro field
    cases field <;> simp [RoutesSrv.validateMarks]
  · intro field m hm
    cases field with
    | array elems =>
      have hm' : m ∈ (elems.filterMap id).filter (fun m => decide (0 < m)) :=
        List.mem_of_mem_take (by simpa [RoutesSrv.validateMarks] using hm)
      exact of_decide_eq_true (List.mem_filter.mp hm').2
    | absent => rcases (by simpa [RoutesSrv.validateMarks] using hm : m = 2 ∨ m = 5) with h | h <;> simp [h]
    | unparseable => rcases (by simpa [RoutesSrv.validateMarks] using hm : m = 2 ∨ m = 5) with h | h <;> simp [h]
    | nonArray => rcases (by simpa [RoutesSrv.validateMarks] using hm : m = 2 ∨ m = 5) with h | h <;> simp [h]

/-- C4 witness: a concrete positive entry is kept and is positive. -/
theorem c4_witness :
    fiveHalves ∈ RoutesSrv.validateMarks (.array [some fiveHalves])
    ∧ (0 : Rat) < fiveHalves :=
  ⟨by decide, c4_marks_amended.2.1 (.array [some fiveHalves]) fiveHalves (by decide)⟩

theorem dropWhile_append_of_all {α : Type} (p : α → Bool) :
    ∀ (pre l : List α), (∀ c ∈ pre, p c = true) →
      List.dropWhile p (pre ++ l) = List.dropWhile p l := by
  intro pre
  induction pre with
  | nil => intro l _; rfl
  | cons a as ih =>
    intro l h
    rw [List.cons_append, List.dropWhile_cons, if_pos (h a (by simp))]
    exact ih l (fun c hc => h c (by simp [hc]))

theorem combine_foldl_filterMap :
    ∀ (results : List (Option ChunkSummary)) (acc : String × List NoteSection),
      results.foldl Ai.combineStep acc
        = ((results.filterMap id).map some).foldl Ai.combineStep acc := by
  intro results
  induction results with
  | nil => intro acc; rfl
  | cons r rest ih =>
    intro acc
    cases r with
    | none => simpa [Ai.combineStep] using ih acc
    | some p => simpa [Ai.combineStep] using ih (Ai.combineStep acc (some p))

theorem transcribeP2Go_length {α : Type} (f : α → Except String String) :
    ∀ (l : List α) (i : Nat), (Part002.transcribeChunksGo f i l).length = l.length := by
  intro l
  induction l with
  | nil => intro i; rfl
  | cons c cs ih => intro i; simp [Part002.transcribeChunksGo, ih]

theorem transcribeP2Go_getElem {α : Type} (f : α → Except String String) :
    ∀ (l : List α) (i k : Nat) (c : α), l[k]? = some c →
      (Part002.transcribeChunksGo f i l)[k]?
        = some (match f c with
            | .ok t => t
            | .error _ => "[Transcription failed for segment " ++ toString (i + k + 1) ++ "]") := by
  intro l
  induction l with
  | nil => intro i k c hc; simp at hc
  | cons x xs ih =>
    intro i k c hc
    cases k with
    | zero =>
      rw [List.getElem?_cons_zero] at hc
      rw [Part002.transcribeChunksGo, List.getElem?_cons_zero, Option.some.injEq] at *
      subst hc; rfl
    | succ k =>
      rw [List.getElem?_cons_succ] at hc
      rw [Part002.transcribeChunksGo, List.getElem?_cons_succ]
      have := ih (i + 1) k c hc
      rwa [show i + 1 + k + 1 = i + (k + 1) + 1 by omega] at this

theorem isErr_exceptMap {β γ : Type} (e : Except String β) (g : β → γ) :
    isErr (e.map g) = isErr e := by
  cases e <;> rfl

theorem isErr_collectBatch :
    ∀ (rs : List (Except String String)),
      (isErr (RoutesSrv.collectBatch rs) = true ↔ ∃ r ∈ rs, isErr r = true) := by
  intro rs
  induction rs with
  | nil => simp [RoutesSrv.collectBatch, isErr]
  | cons r rest ih =>
    cases r with
    | error e => simp [RoutesSrv.collectBatch, isErr]
    | ok t =>
      rw [RoutesSrv.collectBatch, isErr_exceptMap]
      simp only [List.mem_cons]
      constructor
      · intro h
        rcases ih.mp h with ⟨r, hr, herr⟩
        exact ⟨r, Or.inr hr, herr⟩
      · intro ⟨r, hr, herr⟩
        rcases hr with rfl | hr
        · simp [isErr] at herr
        · exact ih.mpr ⟨r, hr, herr⟩

theorem isErr_transcribeGo {α : Type} (f : α → Except String String) :
    ∀ (fuel : Nat) (l : List α), l.length ≤ fuel →
      (isErr (RoutesSrv.transcribeChunksGo f fuel l) = true
        ↔ ∃ c ∈ l, isErr (f c) = true) := by
  intro fuel
  induction fuel with
  | zero =>
    intro l h
    have : l = [] := List.eq_nil_of_length_eq_zero (Nat.le_zero.mp h)
    subst this
    simp [RoutesSrv.transcribeChunksGo, isErr]
  | succ fuel ih =>
    intro l h
    cases l with
    | nil => simp [RoutesSrv.transcribeChunksGo, isErr]
    | cons c cs =>
      rw [RoutesSrv.transcribeChunksGo]
      cases hcb : RoutesSrv.collectBatch (((c :: cs).take 5).map f) with
      | error e =>
        simp only [isErr]
        constructor
        · intro _
          have hex : ∃ r ∈ ((c :: cs).take 5).map f, isErr r = true :=
            isErr_collectBatch _ |>.mp (by rw [hcb]; rfl)
          rcases hex with ⟨r, hr, herr⟩
          rcases List.mem_map.mp hr with ⟨x, hx, rfl⟩
          exact ⟨x, List.mem_of_mem_take hx, herr⟩
        · intro _; trivial
      | ok texts =>
        rw [isErr_exceptMap]
        have hlen : ((c :: cs).drop 5).length ≤ fuel := by
          simp only [List.length_drop, List.length_cons]
          simp only [List.length_cons] at h
          omega
        rw [ih ((c :: cs).drop 5) hlen]
        have hnotake : ∀ x ∈ (c :: cs).take 5, isErr (f x) = false := by
          intro x hx
          by_contra hcon
          have hx' : isErr (f x) = true := by
            cases hfx : isErr (f x)
            · exact absurd hfx hcon
            · rfl
          have : isErr (RoutesSrv.collectBatch (((c :: cs).take 5).map f)) = true :=
            isErr_collectBatch _ |>.mpr ⟨f x, List.mem_map.mpr ⟨x, hx, rfl⟩, hx'⟩
          rw [hcb] at this
          simp [isErr] at this
        constructor
        · intro ⟨x, hx, herr⟩
          exact ⟨x, List.mem_of_mem_drop hx, herr⟩
        · intro ⟨x, hx, herr⟩
          have hx' : x ∈ (c :: cs).take 5 ++ (c :: cs).drop 5 := by
            rw [List.take_append_drop]; exact hx
          rcases List.mem_append.mp hx' with htk | hdp
          · rw [hnotake x htk] at herr; exact absurd herr (by simp)
          · exact ⟨x, hdp, herr⟩

/-- C5 counterexample: in the src/server/routes.ts transcribeChunks the
failure of a single chunk rejects the whole call — the per-chunk error
is propagated to the caller instead of being absorbed. -/
theorem c5_counterexample :
    RoutesSrv.transcribeChunks (fun _ : Nat => Except.error "boom") [0]
      = Except.error "boom" := rfl

/-- C5 (amended): the two variants differ. The part_002 transcribeChunks
never rejects: it returns the space-join of one text per chunk, where a
chunk whose call succeeded contributes its transcript and a chunk whose
call failed contributes the placeholder marker for its segment. The
src/server/routes.ts transcribeChunks rejects exactly when some chunk's
call rejects, propagating a per-chunk error to the caller. -/
theorem c5_per_chunk_policy {α : Type} (f : α → Except String String) (chunks : List α) :
    (∃ texts : List String,
       Part002.transcribeChunks f chunks = joinSepStr " " texts
       ∧ texts.length = chunks.length
       ∧ ∀ (i : Nat) (c : α), chunks[i]? = some c →
           texts[i]? = some (match f c with
             | .ok t => t
             | .error _ => "[Transcription failed for segment " ++ toString (i + 1) ++ "]"))
    ∧ (isErr (RoutesSrv.transcribeChunks f chunks) = true ↔ ∃ c ∈ chunks, isErr (f c) = true) := by
  constructor
  · refine ⟨Part002.transcribeChunksGo f 0 chunks, rfl, transcribeP2Go_length f chunks 0, ?_⟩
    intro i c hc
    simpa using transcribeP2Go_getElem f chunks 0 i c hc
  · rw [RoutesSrv.transcribeChunks, isErr_exceptMap]
    exact isErr_transcribeGo f chunks.length chunks (Nat.le_refl _)

/-- C5 witness: the amended characterization applied at a concrete
failing chunk — the routes.ts variant rejects. -/
theorem c5_witness :
    isErr (RoutesSrv.transcribeChunks (fun _ : Nat => Except.error "boom") [0]) = true :=
  (c5_per_chunk_policy (fun _ : Nat => Except.error "boom") [0]).2.mpr ⟨0, by decide, rfl⟩

/-- C8 counterexample: the code extracts the span from the first open
brace to the LAST close brace (the regex is greedy), not the first
balanced brace span the claim describes; on content holding two brace
groups the two extractions differ. -/
theorem c8_counterexample :
    Ai.extractJsonSpan ['x', lbrace, 'a', rbrace, ' ', lbrace, 'b', rbrace, 'y']
        = some [lbrace, 'a', rbrace, ' ', lbrace, 'b', rbrace]
    ∧ Ai.firstBalancedSpan ['x', lbrace, 'a', rbrace, ' ', lbrace, 'b', rbrace, 'y']
        = some [lbrace, 'a', rbrace]
    ∧ Ai.extractJsonSpan ['x', lbrace, 'a', rbrace, ' ', lbrace, 'b', rbrace, 'y']
        ≠ Ai.firstBalancedSpan ['x', lbrace, 'a', rbrace, ' ', lbrace, 'b', rbrace, 'y'] := by
  decide

/-- C8 (amended): the extraction tolerates leading and trailing
non-JSON text by taking the span from the first open brace to the last
close brace (on content with no open brace before the span and no close
brace after it, exactly the span is extracted); when no span exists
safeJSONParse yields none, and when a span is extracted safeJSONParse
yields exactly what the parser yields on it — none on a parse failure;
and the orchestrator aggregation treats null partial results as
contributing nothing: dropping them leaves the combined summary and
notes unchanged. -/
theorem c8_json_extraction_amended :
    (∀ (pre mid post : List Char), lbrace ∉ pre → rbrace ∉ post →
       Ai.extractJsonSpan (pre ++ lbrace :: (mid ++ rbrace :: post))
         = some (lbrace :: (mid ++ [rbrace])))
    ∧ (∀ (J : Type) (parse : List Char → Option J) (content : List Char),
        (Ai.extractJsonSpan content = none → Ai.safeJSONParse parse content = none)
        ∧ (∀ span, Ai.extractJsonSpan content = some span →
            Ai.safeJSONParse parse content = parse span))
    ∧ (∀ results : List (Option ChunkSummary),
        Ai.combineResults results = Ai.combineResults ((results.filterMap id).map some)) := by
  refine ⟨?_, ?_, ?_⟩
  · intro pre mid post hpre hpost
    have hall1 : ∀ c ∈ pre, (c != lbrace) = true := by
      intro c hc
      simp only [bne_iff_ne, ne_eq]
      intro he; exact hpre (he ▸ hc)
    have h1 : (pre ++ lbrace :: (mid ++ rbrace :: post)).dropWhile (fun c => c != lbrace)
        = lbrace :: (mid ++ rbrace :: post) := by
      rw [dropWhile_append_of_all _ pre _ hall1, List.dropWhile_cons]
      simp
    have hall2 : ∀ c ∈ post.reverse, (c != rbrace) = true := by
      intro c hc
      simp only [bne_iff_ne, ne_eq]
      intro he; exact hpost (he ▸ List.mem_reverse.mp hc)
    have hrev : (lbrace :: (mid ++ rbrace :: post)).reverse
        = post.reverse ++ rbrace :: (mid.reverse ++ [lbrace]) := by
      simp
    have h2 : ((lbrace :: (mid ++ rbrace :: post)).reverse).dropWhile (fun x => x != rbrace)
        = rbrace :: (mid.reverse ++ [lbrace]) := by
      rw [hrev, dropWhile_append_of_all _ post.reverse _ hall2, List.dropWhile_cons]
      simp
    rw [Ai.extractJsonSpan, h1, Ai.firstOpenCore, h2, Ai.lastCloseCore]
    simp
  · intro J parse content
    constructor
    · intro h
      rw [Ai.safeJSONParse, h]
    · intro span h
      rw [Ai.safeJSONParse, h]
  · intro results
    exact combine_foldl_filterMap results ("", [])

/-- C8 witness: the tolerance statement applied at concrete leading and
trailing junk around a concrete brace span. -/
theorem c8_witness :
    Ai.extractJsonSpan (['x'] ++ lbrace :: (['a'] ++ rbrace :: ['y']))
      = some (lbrace :: (['a'] ++ [rbrace])) :=
  c8_json_extraction_amended.1 ['x'] ['a'] ['y'] (by decide) (by decide)

/-- C10: the transcription field of the generateAISummary result is the
input transcript unchanged, whatever the outcomes of the summarization
and question-generation calls. -/
theorem c10_transcription_identity (chunkResp : Nat → Option ChunkSummary)
    (qaResp : Option (List QAPair)) (transcript : String) (mode : LectureMode)
    (marksList : List Rat) :
    (Ai.generateAISummary chunkResp qaResp transcript mode marksList).transcription
      = transcript := rfl

end LectureScribe
